import Mathlib

/-!
Shallow embedding of `dioxus-helmet` (`src/lib.rs`): a Dioxus component that
places its declared children into the document `<head>`, deduplicated by a
hash of `(seed, descriptor)` kept in a global registry (`INIT_CACHE`), and
removes its own nodes on drop.

Machine integers are modelled as `Nat` with explicit reduction `% 2^64`.
The DOM is modelled as the ordered list of the head's element children; the
DOM primitives (`create_element`, `set_attribute`, `get_attribute`,
`query_selector_all`, title lookup) are modelled as Lean functions on that
list.  The registry lock (`try_lock`) is modelled by a boolean input
`lockOk`: `true` means the lock was acquired, `false` means acquisition
failed.
-/

namespace DioxusHelmet

/-! ### FxHasher (rustc-hash 1.1.0, 64-bit target)

`FxHasher` state is a single `u64`, starting at 0.  Each word `w` is folded
in by `hash = (hash.rotate_left(5) ^ w).wrapping_mul(K)` with
`K = 0x517cc1b727220a95`.  `write` for a byte slice consumes 8-byte
little-endian chunks, then a 4-byte, a 2-byte and a 1-byte remainder. -/

def fxK : Nat := 0x517cc1b727220a95

/-- `rotate_left(5)` on a 64-bit value. -/
def rotl5 (h : Nat) : Nat := (h % 2 ^ 59) * 2 ^ 5 + h / 2 ^ 59

/-- `add_to_hash`: `hash = (hash.rotate_left(5) ^ w).wrapping_mul(K)`. -/
def addToHash (h w : Nat) : Nat := (Nat.xor (rotl5 h) w * fxK) % 2 ^ 64

/-- Little-endian word value of a byte list (`usize::from_ne_bytes`). -/
def leWord (bs : List Nat) : Nat := bs.foldr (fun b acc => b + 2 ^ 8 * acc) 0

/-- UTF-8 encoding of one character (`str::as_bytes`). -/
def utf8Bytes (c : Char) : List Nat :=
  let n := c.toNat
  if n < 0x80 then [n]
  else if n < 0x800 then [0xC0 + n / 0x40, 0x80 + n % 0x40]
  else if n < 0x10000 then
    [0xE0 + n / 0x1000, 0x80 + n / 0x40 % 0x40, 0x80 + n % 0x40]
  else
    [0xF0 + n / 0x40000, 0x80 + n / 0x1000 % 0x40, 0x80 + n / 0x40 % 0x40,
      0x80 + n % 0x40]

def strBytes (s : String) : List Nat := (s.data.map utf8Bytes).flatten

/-- Remainder of `FxHasher::write` once fewer than 2 bytes are left. -/
def fxWrite1 (h : Nat) (bs : List Nat) : Nat :=
  match bs with
  | b0 :: _ => addToHash h (leWord [b0])
  | [] => h

/-- Remainder of `FxHasher::write` once fewer than 4 bytes are left. -/
def fxWrite2 (h : Nat) (bs : List Nat) : Nat :=
  match bs with
  | b0 :: b1 :: rest => fxWrite1 (addToHash h (leWord [b0, b1])) rest
  | bs => fxWrite1 h bs

/-- Remainder of `FxHasher::write` once fewer than 8 bytes are left. -/
def fxWrite4 (h : Nat) (bs : List Nat) : Nat :=
  match bs with
  | b0 :: b1 :: b2 :: b3 :: rest =>
    fxWrite2 (addToHash h (leWord [b0, b1, b2, b3])) rest
  | bs => fxWrite2 h bs

/-- `FxHasher::write`: fold 8-byte little-endian chunks, then the tail. -/
def fxWrite (h : Nat) : List Nat → Nat
  | b0 :: b1 :: b2 :: b3 :: b4 :: b5 :: b6 :: b7 :: rest =>
    fxWrite (addToHash h (leWord [b0, b1, b2, b3, b4, b5, b6, b7])) rest
  | bs => fxWrite4 h bs

/-- `Hash for str`: `write(bytes)` then `write_u8(0xff)`. -/
def fxWriteStr (h : Nat) (s : String) : Nat := addToHash (fxWrite h (strBytes s)) 0xff

/-- Two's-complement `u64` bit pattern of an `i64` value. -/
def i64Bits (i : Int) : Nat := (i.emod (2 ^ 64)).toNat

/-! ### Descriptors -/

/-- One attribute in a Dioxus template (`TemplateAttribute`). -/
inductive TemplateAttribute where
  | Static (name : String) (value : String)
  | Dynamic (id : Nat)

/-- One node in a Dioxus template (`TemplateNode`). -/
inductive TemplateNode where
  | Element (tag : String) (attrs : List TemplateAttribute)
      (children : List TemplateNode)
  | Text (text : String)
  | Dynamic (id : Nat)
  | DynamicText (id : Nat)

/-- `ElementMap`: one extracted head-element descriptor. -/
structure ElementMap where
  tag : String
  attributes : List (String × String)
  inner_html : Option String
deriving DecidableEq

/-- `#[derive(Hash)] for ElementMap`: tag (str), then the attribute vector
(length prefix, then each `(name, value)` pair), then the `Option` inner
content (discriminant 0 or 1, then the string when present). -/
def hashElementMap (h : Nat) (em : ElementMap) : Nat :=
  let h := fxWriteStr h em.tag
  let h := addToHash h em.attributes.length
  let h := em.attributes.foldl (fun h p => fxWriteStr (fxWriteStr h p.1) p.2) h
  match em.inner_html with
  | none => addToHash h 0
  | some s => fxWriteStr (addToHash h 1) s

/-- The identity of a descriptor: `FxHasher::default()`, `seed.hash`,
`element_map.hash`, `finish()`. -/
def helmetHash (seed : Int) (em : ElementMap) : Nat :=
  hashElementMap (addToHash 0 (i64Bits seed)) em

/-! ### Descriptor extraction (`extract_element_maps`) -/

/-- Static attributes are kept as `(name, value)`; dynamic ones are dropped. -/
def extract_attributes (attrs : List TemplateAttribute) : List (String × String) :=
  attrs.filterMap fun a =>
    match a with
    | TemplateAttribute.Static name value => some (name, value)
    | TemplateAttribute.Dynamic _ => none

/-- `inner_html` of one element child: first child if it is text, else the
sole grandchild if the first child is a single-child element whose child is
text. -/
def extract_inner_html (children : List TemplateNode) : Option String :=
  match children.head? with
  | some (TemplateNode.Text text) => some text
  | some (TemplateNode.Element _ _ cs) =>
    if cs.length == 1 then
      match cs.head? with
      | some (TemplateNode.Text text) => some text
      | _ => none
    else none
  | _ => none

/-- The `filter_map` body: element roots become descriptors, other roots are
skipped. -/
def extract_node (child : TemplateNode) : Option ElementMap :=
  match child with
  | TemplateNode.Element tag attrs children =>
    some { tag := tag
           attributes := extract_attributes attrs
           inner_html := extract_inner_html children }
  | _ => none

/-- `extract_element_maps`: `None` when the component has no children
(`children` is `None`), otherwise the descriptors of the template roots. -/
def extract_element_maps (children : Option (List TemplateNode)) :
    Option (List ElementMap) :=
  match children with
  | some roots => some (roots.filterMap extract_node)
  | none => none

/-! ### DOM model

The head is the ordered list of its element children.  `create_element`
fails on an invalid tag name (the `InvalidCharacterError` of the DOM
capability, modelled by an XML-Name-shaped validity check). -/

/-- One DOM element: tag, attribute list, inner HTML. -/
structure DomElement where
  tag : String
  attrs : List (String × String)
  inner_html : String
deriving DecidableEq

/-- DOM `setAttribute`: overwrite the first attribute with this name in
place, else append. -/
def setAttr (attrs : List (String × String)) (name value : String) :
    List (String × String) :=
  match attrs with
  | [] => [(name, value)]
  | p :: rest =>
    if p.1 == name then (name, value) :: rest else p :: setAttr rest name value

def DomElement.setAttribute (el : DomElement) (name value : String) : DomElement :=
  { el with attrs := setAttr el.attrs name value }

/-- DOM `getAttribute`: value of the first attribute with this name. -/
def DomElement.getAttribute (el : DomElement) (name : String) : Option String :=
  (el.attrs.find? fun p => p.1 == name).map fun p => p.2

def isNameStartChar (c : Char) : Bool := c.isAlpha || c == ':' || c == '_'

def isNameChar (c : Char) : Bool :=
  isNameStartChar c || c.isDigit || c == '-' || c == '.'

/-- Validity of a tag name for `document.create_element` (DOM capability):
nonempty, starting with a name-start character. -/
def isValidTagName (s : String) : Bool :=
  match s.data with
  | [] => false
  | c :: cs => isNameStartChar c && cs.all isNameChar

/-- `document.create_element(tag)` (DOM capability): a fresh element with no
attributes and empty content, or failure on an invalid tag. -/
def createElement (tag : String) : Option DomElement :=
  if isValidTagName tag then some { tag := tag, attrs := [], inner_html := "" }
  else none

/-- `ElementMap::try_into_element`: create the element, set its attributes in
order, stamp `data-helmet-id` with the hash, set the inner HTML when present. -/
def ElementMap.try_into_element (em : ElementMap) (hash : Nat) : Option DomElement :=
  match createElement em.tag with
  | some newElement =>
    let newElement :=
      em.attributes.foldl (fun el p => el.setAttribute p.1 p.2) newElement
    let newElement := newElement.setAttribute "data-helmet-id" (toString hash)
    let newElement :=
      match em.inner_html with
      | some inner_html => { newElement with inner_html := inner_html }
      | none => newElement
    some newElement
  | none => none

/-! ### Global state and the two lifecycle passes -/

/-- `HelmetProps`: seed (default 0), optional title, optional children. -/
structure HelmetProps where
  seed : Int
  title : Option String
  children : Option (List TemplateNode)

/-- Observable state: the registry `INIT_CACHE` and the head's children. -/
structure HeadState where
  init_cache : List Nat
  head : List DomElement
deriving DecidableEq

def emptyState : HeadState := { init_cache := [], head := [] }

/-- Overwrite the inner HTML of the first `<title>` element of the head
(`get_elements_by_tag_name("title").get_with_index(0)` + `set_inner_html`). -/
def setTitleInner (t : String) : List DomElement → List DomElement
  | [] => []
  | el :: rest =>
    if el.tag == "title" then { el with inner_html := t } :: rest
    else el :: setTitleInner t rest

/-- The title branch of `Helmet`: overwrite the existing `<title>` if there
is one, else create one, fill it and append it. -/
def updateTitle (t : String) (head : List DomElement) : List DomElement :=
  if head.any (fun el => el.tag == "title") then setTitleInner t head
  else head ++ [{ tag := "title", attrs := [], inner_html := t }]

def applyTitle (title : Option String) (head : List DomElement) : List DomElement :=
  match title with
  | some t => updateTitle t head
  | none => head

/-- One iteration of the install loop: hash the descriptor; if the hash is
not in the cache, push it and append the materialized element (when element
creation succeeds). -/
def installStep (seed : Int) (st : HeadState) (element_map : ElementMap) : HeadState :=
  let hash := helmetHash seed element_map
  if st.init_cache.contains hash then st
  else
    let init_cache := st.init_cache ++ [hash]
    match element_map.try_into_element hash with
    | some new_element =>
      { init_cache := init_cache, head := st.head ++ [new_element] }
    | none => { init_cache := init_cache, head := st.head }

/-- The `Helmet` component body (mount pass): update the title, extract the
descriptors, then under the registry lock run the install loop.  `lockOk`
models the outcome of `INIT_CACHE.try_lock()`; on failure the pass returns
after the title update. -/
def Helmet (props : HelmetProps) (lockOk : Bool) (st : HeadState) : HeadState :=
  let st := { st with head := applyTitle props.title st.head }
  match extract_element_maps props.children with
  | none => st
  | some element_maps =>
    if lockOk then element_maps.foldl (installStep props.seed) st else st

/-- `init_cache.iter().position(|&c| c == hash)` + `init_cache.remove(index)`:
remove the first occurrence of `hash`, if any. -/
def cacheRemove (cache : List Nat) (hash : Nat) : List Nat :=
  match cache with
  | [] => []
  | c :: rest => if c == hash then rest else cacheRemove rest hash |> (c :: ·)

/-- One iteration of the removal loop: hash the descriptor, remove the first
matching cache entry, and remove every element matched by
`[data-helmet-id='{hash}']`. -/
def removeStep (seed : Int) (st : HeadState) (element_map : ElementMap) : HeadState :=
  let hash := helmetHash seed element_map
  { init_cache := cacheRemove st.init_cache hash
    head := st.head.filter fun el =>
      !(el.getAttribute "data-helmet-id" == some (toString hash)) }

/-- `Drop for HelmetProps` (unmount pass): re-extract the descriptors, then
under the registry lock run the removal loop.  On lock failure (or absent
children) nothing happens. -/
def dropHelmet (props : HelmetProps) (lockOk : Bool) (st : HeadState) : HeadState :=
  match extract_element_maps props.children with
  | none => st
  | some element_maps =>
    if lockOk then element_maps.foldl (removeStep props.seed) st else st

/-- Number of head elements whose `data-helmet-id` stamp is `hash`. -/
def countStamped (head : List DomElement) (hash : Nat) : Nat :=
  (head.filter fun el =>
    el.getAttribute "data-helmet-id" == some (toString hash)).length

/-- States reachable from the empty document by mount and unmount passes. -/
inductive Reachable : HeadState → Prop where
  | empty : Reachable emptyState
  | mount (props : HelmetProps) (lockOk : Bool) (st : HeadState) :
      Reachable st → Reachable (Helmet props lockOk st)
  | unmount (props : HelmetProps) (lockOk : Bool) (st : HeadState) :
      Reachable st → Reachable (dropHelmet props lockOk st)

/-- The head elements returned by `get_elements_by_tag_name("title")`. -/
def titleElements (head : List DomElement) : List DomElement :=
  head.filter fun el => el.tag == "title"

/-- The `<title>` element as the title branch creates it. -/
def titleNode (t : String) : DomElement :=
  { tag := "title", attrs := [], inner_html := t }

/-- The component's declared children yield no descriptor tagged `title`
(the title branch is then the only source of `<title>` elements). -/
def noTitleDescriptors (p : HelmetProps) : Bool :=
  match extract_element_maps p.children with
  | some maps => maps.all fun em => !(em.tag == "title")
  | none => true

/-- Mount a sequence of components, in order, all with the lock acquired. -/
def mountAll (ps : List HelmetProps) (st : HeadState) : HeadState :=
  ps.foldl (fun st p => Helmet p true st) st

/-- Modelled from the spec: the inner-content extraction rule, stated as the
spec words it — (1) if the first descendant is a plain-text node, that text;
(2) else if the first descendant is an element node with exactly one child
that is plain text, that text; (3) otherwise absent. -/
def specInnerContent (children : List TemplateNode) : Option String :=
  match children with
  | TemplateNode.Text t :: _ => some t
  | TemplateNode.Element _ _ [TemplateNode.Text t] :: _ => some t
  | _ => none

end DioxusHelmet

namespace DioxusHelmet

/-! ### Injectivity of the decimal stamp (`hash.to_string`) -/

theorem toDigitsCore_eq_digits (f : Nat) :
    ∀ n acc, 0 < n → n < f →
      Nat.toDigitsCore 10 f n acc =
        ((Nat.digits 10 n).map Nat.digitChar).reverse ++ acc := by
  induction f with
  | zero => intro n acc hn hf; omega
  | succ f ih =>
    intro n acc hn hf
    rw [Nat.digits_def' (b := 10) (by norm_num) hn]
    by_cases h0 : n / 10 = 0
    · simp [Nat.toDigitsCore, h0, Nat.digits_zero]
    · have hlt : n / 10 < f := by
        have h1 : n / 10 < n := Nat.div_lt_self hn (by norm_num)
        omega
      simp only [Nat.toDigitsCore, h0, if_false]
      rw [ih (n / 10) _ (Nat.pos_of_ne_zero h0) hlt]
      simp [List.append_assoc]

theorem repr_eq_of_pos (n : Nat) (hn : 0 < n) :
    Nat.repr n = ((Nat.digits 10 n).map Nat.digitChar).reverse.asString := by
  unfold Nat.repr Nat.toDigits
  rw [toDigitsCore_eq_digits (n + 1) n [] hn (Nat.lt_succ_self n)]
  simp

theorem digitChar_inj_lt :
    ∀ a < 10, ∀ b < 10, Nat.digitChar a = Nat.digitChar b → a = b := by decide

theorem map_digitChar_inj :
    ∀ l1 l2 : List Nat, (∀ x ∈ l1, x < 10) → (∀ x ∈ l2, x < 10) →
      l1.map Nat.digitChar = l2.map Nat.digitChar → l1 = l2 := by
  intro l1
  induction l1 with
  | nil => intro l2 _ _ h; cases l2 <;> simp_all
  | cons a l ih =>
    intro l2 h1 h2 h
    cases l2 with
    | nil => simp_all
    | cons b l2 =>
      simp only [List.map_cons, List.cons.injEq] at h
      have ha : a = b :=
        digitChar_inj_lt a (h1 a (by simp)) b (h2 b (by simp)) h.1
      have hl : l = l2 :=
        ih l2 (fun x hx => h1 x (by simp [hx])) (fun x hx => h2 x (by simp [hx])) h.2
      rw [ha, hl]

theorem asString_inj (l1 l2 : List Char) (h : l1.asString = l2.asString) : l1 = l2 := by
  have := congrArg String.data h
  simpa [List.asString] using this

theorem digits_map_ne_zero_char (n : Nat) (hn : 0 < n) :
    ¬ (Nat.digits 10 n).map Nat.digitChar = ['0'] := by
  intro h
  match hd : Nat.digits 10 n, h2 : (Nat.digits 10 n).map Nat.digitChar, h with
  | [d], _, _ =>
    rw [hd] at h
    simp only [List.map_cons, List.map_nil, List.cons.injEq] at h
    have hlt : d < 10 := Nat.digits_lt_base (by norm_num) (by rw [hd]; simp)
    have hd0 : d = 0 := digitChar_inj_lt d hlt 0 (by norm_num) (by simpa using h.1)
    have hval := Nat.ofDigits_digits 10 n
    rw [hd, hd0] at hval
    simp [Nat.ofDigits] at hval
    omega
  | [], _, _ => rw [hd] at h; simp at h
  | d1 :: d2 :: t, _, _ => rw [hd] at h; simp at h

theorem natRepr_injective (m n : Nat) (h : Nat.repr m = Nat.repr n) : m = n := by
  rcases Nat.eq_zero_or_pos m with hm | hm <;>
    rcases Nat.eq_zero_or_pos n with hn | hn
  · omega
  · subst hm
    rw [repr_eq_of_pos n hn] at h
    have h0 : Nat.repr 0 = (['0'] : List Char).asString := rfl
    rw [h0] at h
    have := asString_inj _ _ h
    have hrev := congrArg List.reverse this
    simp only [List.reverse_reverse] at hrev
    exact absurd hrev.symm (by simpa using digits_map_ne_zero_char n hn)
  · subst hn
    rw [repr_eq_of_pos m hm] at h
    have h0 : Nat.repr 0 = (['0'] : List Char).asString := rfl
    rw [h0] at h
    have := asString_inj _ _ h
    have hrev := congrArg List.reverse this
    simp only [List.reverse_reverse] at hrev
    exact absurd hrev (by simpa using digits_map_ne_zero_char m hm)
  · rw [repr_eq_of_pos m hm, repr_eq_of_pos n hn] at h
    have := asString_inj _ _ h
    have hrev := congrArg List.reverse this
    simp only [List.reverse_reverse] at hrev
    have hdig := map_digitChar_inj _ _
      (fun x hx => Nat.digits_lt_base (by norm_num) hx)
      (fun x hx => Nat.digits_lt_base (by norm_num) hx) hrev
    have := congrArg (Nat.ofDigits 10) hdig
    rwa [Nat.ofDigits_digits, Nat.ofDigits_digits] at this

theorem toString_nat_inj (m n : Nat) (h : toString m = toString n) : m = n :=
  natRepr_injective m n h

theorem toString_nat_ne (m n : Nat) (h : m ≠ n) : toString m ≠ toString n :=
  fun hc => h (toString_nat_inj m n hc)

/-! ### DOM primitive lemmas -/

theorem find?_setAttr_self (attrs : List (String × String)) (n v : String) :
    (setAttr attrs n v).find? (fun p => p.1 == n) = some (n, v) := by
  induction attrs with
  | nil => simp [setAttr, List.find?]
  | cons p rest ih =>
    by_cases hp : p.1 = n
    · simp [setAttr, hp, List.find?]
    · simp only [setAttr, beq_iff_eq, hp, if_false]
      rw [List.find?_cons_of_neg _ (by simpa using hp)]
      exact ih

theorem getAttribute_setAttribute_self (el : DomElement) (n v : String) :
    (el.setAttribute n v).getAttribute n = some v := by
  simp [DomElement.setAttribute, DomElement.getAttribute, find?_setAttr_self]

theorem setAttribute_tag (el : DomElement) (n v : String) :
    (el.setAttribute n v).tag = el.tag := rfl

theorem foldl_setAttribute_tag (ps : List (String × String)) (el : DomElement) :
    (ps.foldl (fun el p => el.setAttribute p.1 p.2) el).tag = el.tag := by
  induction ps generalizing el with
  | nil => rfl
  | cons p rest ih => simp [List.foldl_cons, ih, setAttribute_tag]

theorem try_into_element_none (em : ElementMap) (hash : Nat)
    (h : isValidTagName em.tag = false) : em.try_into_element hash = none := by
  simp [ElementMap.try_into_element, createElement, h]

theorem try_into_element_some (em : ElementMap) (hash : Nat)
    (h : isValidTagName em.tag = true) :
    ∃ el, em.try_into_element hash = some el ∧
      el.tag = em.tag ∧
      el.getAttribute "data-helmet-id" = some (toString hash) := by
  simp only [ElementMap.try_into_element, createElement, h, if_true]
  cases hi : em.inner_html with
  | none =>
    refine ⟨_, rfl, ?_, ?_⟩
    · simp [setAttribute_tag, foldl_setAttribute_tag]
    · exact getAttribute_setAttribute_self _ _ _
  | some s =>
    refine ⟨_, rfl, ?_, ?_⟩
    · simp [setAttribute_tag, foldl_setAttribute_tag]
    · exact getAttribute_setAttribute_self _ _ _

theorem try_into_element_stamp (em : ElementMap) (hash : Nat) (el : DomElement)
    (h : em.try_into_element hash = some el) :
    el.getAttribute "data-helmet-id" = some (toString hash) ∧ el.tag = em.tag := by
  by_cases hv : isValidTagName em.tag
  · obtain ⟨el', hel', htag, hst⟩ := try_into_element_some em hash hv
    rw [hel'] at h
    cases h
    exact ⟨hst, htag⟩
  · rw [try_into_element_none em hash (by simpa using hv)] at h
    cases h

/-! ### `countStamped` lemmas -/

theorem countStamped_append (h1 h2 : List DomElement) (s : Nat) :
    countStamped (h1 ++ h2) s = countStamped h1 s + countStamped h2 s := by
  simp [countStamped, List.filter_append]

theorem countStamped_nil (s : Nat) : countStamped [] s = 0 := rfl

theorem countStamped_singleton_of_stamp (el : DomElement) (s : Nat)
    (h : el.getAttribute "data-helmet-id" = some (toString s)) :
    countStamped [el] s = 1 := by
  simp [countStamped, List.filter, h]

theorem countStamped_singleton_of_ne (el : DomElement) (s s' : Nat)
    (hs : el.getAttribute "data-helmet-id" = some (toString s')) (hne : s' ≠ s) :
    countStamped [el] s = 0 := by
  have : (el.getAttribute "data-helmet-id" == some (toString s)) = false := by
    simp [hs, toString_nat_ne s' s hne]
  simp [countStamped, List.filter, this]

/-! ### Title-branch lemmas -/

theorem getAttribute_inner_update (el : DomElement) (t n : String) :
    ({ el with inner_html := t } : DomElement).getAttribute n = el.getAttribute n := rfl

theorem countStamped_setTitleInner (t : String) (head : List DomElement) (s : Nat) :
    countStamped (setTitleInner t head) s = countStamped head s := by
  induction head with
  | nil => rfl
  | cons el rest ih =>
    by_cases he : el.tag = "title"
    · simp only [setTitleInner, he, beq_self_eq_true, if_true]
      have hp : ({ tag := "title", attrs := el.attrs, inner_html := t } :
          DomElement).getAttribute "data-helmet-id"
          = el.getAttribute "data-helmet-id" := rfl
      simp only [countStamped, List.filter_cons, hp]
      cases hb : (el.getAttribute "data-helmet-id" == some (toString s)) <;> simp [hb]
    · simp only [setTitleInner, beq_iff_eq, he, if_false]
      show countStamped ([el] ++ setTitleInner t rest) s
        = countStamped ([el] ++ rest) s
      rw [countStamped_append, countStamped_append, ih]

theorem countStamped_titleNode (t : String) (s : Nat) :
    countStamped [titleNode t] s = 0 := by
  simp [countStamped, titleNode, DomElement.getAttribute, List.filter, List.find?]

theorem countStamped_applyTitle (title : Option String) (head : List DomElement)
    (s : Nat) : countStamped (applyTitle title head) s = countStamped head s := by
  cases title with
  | none => rfl
  | some t =>
    simp only [applyTitle, updateTitle]
    by_cases ha : head.any (fun el => el.tag == "title")
    · simp [ha, countStamped_setTitleInner]
    · have ha' : (head.any fun el => el.tag == "title") = false := by simpa using ha
      simp only [ha', Bool.false_eq_true, if_false, countStamped_append]
      have h0 := countStamped_titleNode t s
      simp only [titleNode] at h0
      omega

/-! ### Mount-pass (install loop) lemmas -/

theorem installStep_cache_mono (s : Int) (st : HeadState) (em : ElementMap)
    (a : Nat) (h : a ∈ st.init_cache) : a ∈ (installStep s st em).init_cache := by
  simp only [installStep]
  split
  · exact h
  · split <;> simp [h]

theorem mfold_cache_mono (s : Int) (maps : List ElementMap) (st : HeadState)
    (a : Nat) (h : a ∈ st.init_cache) :
    a ∈ (maps.foldl (installStep s) st).init_cache := by
  induction maps generalizing st with
  | nil => exact h
  | cons em rest ih => exact ih _ (installStep_cache_mono s st em a h)

theorem installStep_cache_self (s : Int) (st : HeadState) (em : ElementMap) :
    helmetHash s em ∈ (installStep s st em).init_cache := by
  simp only [installStep]
  split
  · rename_i hc; exact List.elem_iff.mp hc
  · split <;> simp

theorem mfold_cache_covers (s : Int) (em : ElementMap) :
    ∀ (maps : List ElementMap) (st : HeadState), em ∈ maps →
      helmetHash s em ∈ (maps.foldl (installStep s) st).init_cache := by
  intro maps
  induction maps with
  | nil => intro st h; cases h
  | cons em0 rest ih =>
    intro st h
    rcases List.mem_cons.mp h with rfl | hmem
    · exact mfold_cache_mono s rest _ _ (installStep_cache_self s st em)
    · exact ih _ hmem

theorem installStep_count_mono (s : Int) (st : HeadState) (em : ElementMap)
    (a : Nat) : countStamped st.head a ≤ countStamped (installStep s st em).head a := by
  simp only [installStep]
  split
  · exact Nat.le_refl _
  · split
    · rw [countStamped_append]; exact Nat.le_add_right _ _
    · exact Nat.le_refl _

theorem mfold_count_mono (s : Int) (maps : List ElementMap) (st : HeadState)
    (a : Nat) : countStamped st.head a ≤
      countStamped ((maps.foldl (installStep s) st)).head a := by
  induction maps generalizing st with
  | nil => exact Nat.le_refl _
  | cons em rest ih =>
    exact Nat.le_trans (installStep_count_mono s st em a) (ih _)

theorem installStep_count_of_mem (s : Int) (st : HeadState) (em : ElementMap)
    (a : Nat) (ha : a ∈ st.init_cache) :
    countStamped (installStep s st em).head a = countStamped st.head a := by
  simp only [installStep]
  split
  · rfl
  · rename_i hc
    have hne : helmetHash s em ≠ a := by
      intro he; rw [he] at hc; exact hc (List.elem_iff.mpr ha)
    split
    · rename_i el hel
      rw [countStamped_append,
        countStamped_singleton_of_ne el a (helmetHash s em)
          (try_into_element_stamp em _ el hel).1 hne, Nat.add_zero]
    · rfl

theorem installStep_count_of_ne (s : Int) (st : HeadState) (em : ElementMap)
    (a : Nat) (hne : helmetHash s em ≠ a) :
    countStamped (installStep s st em).head a = countStamped st.head a := by
  simp only [installStep]
  split
  · rfl
  · split
    · rename_i el hel
      rw [countStamped_append,
        countStamped_singleton_of_ne el a (helmetHash s em)
          (try_into_element_stamp em _ el hel).1 hne, Nat.add_zero]
    · rfl

theorem installStep_cache_not_mem (s : Int) (st : HeadState) (em : ElementMap)
    (a : Nat) (ha : a ∉ st.init_cache) (hne : helmetHash s em ≠ a) :
    a ∉ (installStep s st em).init_cache := by
  intro hc
  simp only [installStep] at hc
  split at hc
  · exact ha hc
  · split at hc <;>
    · simp only at hc
      rcases List.mem_append.mp hc with h | h
      · exact ha h
      · simp at h; exact hne h.symm

theorem mfold_count_of_mem (s : Int) (a : Nat) :
    ∀ (maps : List ElementMap) (st : HeadState), a ∈ st.init_cache →
      countStamped ((maps.foldl (installStep s) st)).head a = countStamped st.head a := by
  intro maps
  induction maps with
  | nil => intro st _; rfl
  | cons em rest ih =>
    intro st ha
    simp only [List.foldl_cons]
    rw [ih _ (installStep_cache_mono s st em a ha),
      installStep_count_of_mem s st em a ha]

theorem mfold_count_install (s : Int) (em : ElementMap)
    (hv : isValidTagName em.tag = true) :
    ∀ (maps : List ElementMap) (st : HeadState), em ∈ maps →
      helmetHash s em ∉ st.init_cache →
      countStamped st.head (helmetHash s em) = 0 →
      (∀ em' ∈ maps, helmetHash s em' = helmetHash s em → em' = em) →
      countStamped ((maps.foldl (installStep s) st)).head (helmetHash s em) = 1 := by
  intro maps
  induction maps with
  | nil => intro st h; cases h
  | cons em0 rest ih =>
    intro st hmem hnc h0 hcoll
    by_cases he : helmetHash s em0 = helmetHash s em
    · have : em0 = em := hcoll em0 (by simp) he
      subst this
      have hstep : countStamped (installStep s st em0).head (helmetHash s em0) = 1 ∧
          helmetHash s em0 ∈ (installStep s st em0).init_cache := by
        simp only [installStep]
        rw [if_neg (by intro hc; exact hnc (List.elem_iff.mp hc))]
        obtain ⟨el, hel, _, hst⟩ := try_into_element_some em0 (helmetHash s em0) hv
        rw [hel]
        constructor
        · rw [countStamped_append, h0, countStamped_singleton_of_stamp el _ hst]
        · simp
      simp only [List.foldl_cons]
      rw [mfold_count_of_mem s _ rest _ hstep.2, hstep.1]
    · have hmem' : em ∈ rest := by
        rcases List.mem_cons.mp hmem with rfl | h
        · exact absurd rfl he
        · exact h
      simp only [List.foldl_cons]
      apply ih _ hmem'
      · exact installStep_cache_not_mem s st em0 _ hnc he
      · rw [installStep_count_of_ne s st em0 (helmetHash s em) he]
        exact h0
      · intro em' h' hh; exact hcoll em' (by simp [h']) hh

theorem installStep_nodup (s : Int) (st : HeadState) (em : ElementMap)
    (h : st.init_cache.Nodup) : (installStep s st em).init_cache.Nodup := by
  simp only [installStep]
  split
  · exact h
  · rename_i hc
    have hnm : helmetHash s em ∉ st.init_cache :=
      fun hmem => hc (List.elem_iff.mpr hmem)
    split <;>
    · simp only
      rw [List.nodup_append]
      exact ⟨h, List.nodup_singleton _, by simpa [List.disjoint_singleton] using hnm⟩

theorem mfold_nodup (s : Int) :
    ∀ (maps : List ElementMap) (st : HeadState), st.init_cache.Nodup →
      ((maps.foldl (installStep s) st)).init_cache.Nodup := by
  intro maps
  induction maps with
  | nil => intro st h; exact h
  | cons em rest ih =>
    intro st h
    exact ih _ (installStep_nodup s st em h)

/-! ### `Helmet` / `dropHelmet` unfolding lemmas -/

theorem Helmet_some (props : HelmetProps) (st : HeadState) (maps : List ElementMap)
    (hx : extract_element_maps props.children = some maps) :
    Helmet props true st =
      maps.foldl (installStep props.seed)
        { st with head := applyTitle props.title st.head } := by
  simp [Helmet, hx]

theorem Helmet_lockfail (props : HelmetProps) (st : HeadState) :
    Helmet props false st = { st with head := applyTitle props.title st.head } := by
  simp only [Helmet]
  cases hx : extract_element_maps props.children <;> simp

theorem Helmet_none (props : HelmetProps) (st : HeadState)
    (hx : extract_element_maps props.children = none) :
    Helmet props true st = { st with head := applyTitle props.title st.head } := by
  simp [Helmet, hx]

theorem dropHelmet_some (props : HelmetProps) (st : HeadState)
    (maps : List ElementMap)
    (hx : extract_element_maps props.children = some maps) :
    dropHelmet props true st = maps.foldl (removeStep props.seed) st := by
  simp [dropHelmet, hx]

theorem dropHelmet_lockfail (props : HelmetProps) (st : HeadState) :
    dropHelmet props false st = st := by
  simp only [dropHelmet]
  cases hx : extract_element_maps props.children <;> simp

theorem Helmet_nodup (props : HelmetProps) (lockOk : Bool) (st : HeadState)
    (h : st.init_cache.Nodup) : (Helmet props lockOk st).init_cache.Nodup := by
  simp only [Helmet]
  cases hx : extract_element_maps props.children with
  | none => exact h
  | some maps =>
    simp only
    cases lockOk with
    | false => exact h
    | true => exact mfold_nodup props.seed maps _ h

/-! ### Unmount-pass (removal loop) lemmas -/

theorem cacheRemove_subset (h : Nat) :
    ∀ (cache : List Nat) (a : Nat), a ∈ cacheRemove cache h → a ∈ cache := by
  intro cache
  induction cache with
  | nil => intro a ha; cases ha
  | cons c rest ih =>
    intro a ha
    simp only [cacheRemove] at ha
    by_cases hc : c = h
    · rw [if_pos (by simpa using hc)] at ha
      exact List.mem_cons_of_mem c ha
    · rw [if_neg (by simpa using hc)] at ha
      rcases List.mem_cons.mp ha with rfl | ha
      · exact List.mem_cons_self _ _
      · exact List.mem_cons_of_mem c (ih a ha)

theorem cacheRemove_nodup (h : Nat) :
    ∀ (cache : List Nat), cache.Nodup → (cacheRemove cache h).Nodup := by
  intro cache
  induction cache with
  | nil => intro _; exact List.nodup_nil
  | cons c rest ih =>
    intro hnd
    rw [List.nodup_cons] at hnd
    simp only [cacheRemove]
    by_cases hc : c = h
    · rw [if_pos (by simpa using hc)]; exact hnd.2
    · rw [if_neg (by simpa using hc)]
      rw [List.nodup_cons]
      exact ⟨fun hm => hnd.1 (cacheRemove_subset h rest c hm), ih hnd.2⟩

theorem not_mem_cacheRemove_self (h : Nat) :
    ∀ (cache : List Nat), cache.Nodup → h ∉ cacheRemove cache h := by
  intro cache
  induction cache with
  | nil => intro _ hm; cases hm
  | cons c rest ih =>
    intro hnd
    rw [List.nodup_cons] at hnd
    simp only [cacheRemove]
    by_cases hc : c = h
    · rw [if_pos (by simpa using hc)]
      subst hc; exact hnd.1
    · rw [if_neg (by simpa using hc)]
      intro hm
      rcases List.mem_cons.mp hm with he | hm
      · exact hc he.symm
      · exact ih hnd.2 hm

theorem ufold_cache_subset (s : Int) :
    ∀ (maps : List ElementMap) (st : HeadState) (a : Nat),
      a ∈ ((maps.foldl (removeStep s) st)).init_cache → a ∈ st.init_cache := by
  intro maps
  induction maps with
  | nil => intro st a ha; exact ha
  | cons em rest ih =>
    intro st a ha
    exact cacheRemove_subset _ _ _ (ih _ a ha)

theorem ufold_nodup (s : Int) :
    ∀ (maps : List ElementMap) (st : HeadState), st.init_cache.Nodup →
      ((maps.foldl (removeStep s) st)).init_cache.Nodup := by
  intro maps
  induction maps with
  | nil => intro st h; exact h
  | cons em rest ih =>
    intro st h
    exact ih _ (cacheRemove_nodup _ _ h)

theorem ufold_not_mem (s : Int) (em : ElementMap) :
    ∀ (maps : List ElementMap) (st : HeadState), st.init_cache.Nodup →
      em ∈ maps → helmetHash s em ∉ ((maps.foldl (removeStep s) st)).init_cache := by
  intro maps
  induction maps with
  | nil => intro st _ h; cases h
  | cons em0 rest ih =>
    intro st hnd hmem
    rcases List.mem_cons.mp hmem with rfl | hmem
    · intro hm
      exact not_mem_cacheRemove_self _ _ hnd (ufold_cache_subset s rest _ _ hm)
    · exact ih _ (cacheRemove_nodup _ _ hnd) hmem

theorem dropHelmet_nodup (props : HelmetProps) (lockOk : Bool) (st : HeadState)
    (h : st.init_cache.Nodup) : (dropHelmet props lockOk st).init_cache.Nodup := by
  simp only [dropHelmet]
  cases hx : extract_element_maps props.children with
  | none => exact h
  | some maps =>
    simp only
    cases lockOk with
    | false => exact h
    | true => exact ufold_nodup props.seed maps _ h

/-- The stamp predicate the removal loop's selector
`[data-helmet-id='{hash}']` matches on. -/
theorem ufold_head (s : Int) :
    ∀ (maps : List ElementMap) (st : HeadState),
      ((maps.foldl (removeStep s) st)).head =
        st.head.filter (fun el => !(maps.any (fun em =>
          el.getAttribute "data-helmet-id" == some (toString (helmetHash s em))))) := by
  intro maps
  induction maps with
  | nil => intro st; simp
  | cons em rest ih =>
    intro st
    simp only [List.foldl_cons]
    rw [ih]
    simp only [removeStep]
    rw [List.filter_filter]
    apply List.filter_congr
    intro el _
    simp only [List.any_cons, Bool.not_or]
    rw [Bool.and_comm]

theorem filter_filter_of_imp (p q : DomElement → Bool)
    (himp : ∀ a, p a = true → q a = true) :
    ∀ l : List DomElement, (l.filter q).filter p = l.filter p := by
  intro l
  induction l with
  | nil => rfl
  | cons a l ih =>
    by_cases hq : q a = true
    · rw [List.filter_cons_of_pos hq, List.filter_cons, List.filter_cons, ih]
    · have hp : p a = false := by
        cases hpa : p a
        · rfl
        · exact absurd (himp a hpa) hq
      rw [List.filter_cons_of_neg (by simp [hq]), List.filter_cons_of_neg (by simp [hp]), ih]

theorem ufold_count_zero (s : Int) (em : ElementMap) (maps : List ElementMap)
    (st : HeadState) (hmem : em ∈ maps) :
    countStamped ((maps.foldl (removeStep s) st)).head (helmetHash s em) = 0 := by
  rw [ufold_head]
  simp only [countStamped, List.length_eq_zero]
  rw [List.filter_eq_nil_iff]
  intro el hel
  rw [List.mem_filter] at hel
  intro hq
  have := hel.2
  rw [Bool.not_eq_true', List.any_eq_false] at this
  exact absurd hq (by simpa using this em hmem)

theorem ufold_count_frame (s : Int) (h' : Nat) (maps : List ElementMap)
    (st : HeadState) (hne : ∀ em ∈ maps, helmetHash s em ≠ h') :
    countStamped ((maps.foldl (removeStep s) st)).head h'
      = countStamped st.head h' := by
  rw [ufold_head]
  simp only [countStamped]
  rw [filter_filter_of_imp]
  intro el hp
  rw [beq_iff_eq] at hp
  rw [Bool.not_eq_true', List.any_eq_false]
  intro em hmem
  rw [hp]
  by_contra hb
  rw [beq_iff_eq, Option.some.injEq] at hb
  exact hne em hmem (toString_nat_inj _ _ hb).symm

theorem ufold_count_le (s : Int) (h' : Nat) (maps : List ElementMap)
    (st : HeadState) :
    countStamped ((maps.foldl (removeStep s) st)).head h'
      ≤ countStamped st.head h' := by
  rw [ufold_head]
  simp only [countStamped]
  exact ((List.filter_sublist _).filter _).length_le

/-! ### Title lemmas -/

theorem titleElements_setTitleInner (t : String) :
    ∀ head : List DomElement,
      titleElements (setTitleInner t head) =
        match titleElements head with
        | [] => []
        | el :: rest => { el with inner_html := t } :: rest := by
  intro head
  induction head with
  | nil => rfl
  | cons el rest ih =>
    by_cases he : el.tag = "title"
    · simp [setTitleInner, titleElements, List.filter_cons, he]
    · simp only [setTitleInner, beq_iff_eq, he, if_false]
      simp only [titleElements, List.filter_cons] at ih ⊢
      simp only [beq_iff_eq, he, if_false]
      simpa [titleElements] using ih

theorem titleElements_updateTitle (t : String) (head : List DomElement) :
    titleElements (updateTitle t head) =
      match titleElements head with
      | [] => [titleNode t]
      | el :: rest => { el with inner_html := t } :: rest := by
  by_cases ha : (head.any fun el => el.tag == "title") = true
  · simp only [updateTitle, ha, if_true]
    rw [titleElements_setTitleInner]
    have hne : titleElements head ≠ [] := by
      simp only [titleElements, ne_eq, List.filter_eq_nil_iff]
      rw [List.any_eq_true] at ha
      obtain ⟨x, hx, hpx⟩ := ha
      intro hall
      exact hall x hx hpx
    cases hte : titleElements head with
    | nil => exact absurd hte hne
    | cons el rest => rfl
  · have ha' : (head.any fun el => el.tag == "title") = false := by
      simpa using ha
    have hte : List.filter (fun el => el.tag == "title") head = [] := by
      rw [List.filter_eq_nil_iff]
      rw [List.any_eq_false] at ha'
      exact ha'
    simp only [updateTitle, ha', Bool.false_eq_true, if_false, titleElements,
      List.filter_append, hte]
    simp [List.filter, titleNode]

theorem installStep_titleElements (s : Int) (st : HeadState) (em : ElementMap)
    (hem : ¬ em.tag = "title") :
    titleElements (installStep s st em).head = titleElements st.head := by
  simp only [installStep]
  split
  · rfl
  · split
    · rename_i el hel
      have htag : el.tag = em.tag := (try_into_element_stamp em _ el hel).2
      simp only [titleElements, List.filter_append]
      rw [List.filter_cons, List.filter_nil]
      simp [htag, hem]
    · rfl

theorem mfold_titleElements (s : Int) :
    ∀ (maps : List ElementMap) (st : HeadState),
      (∀ em ∈ maps, ¬ em.tag = "title") →
      titleElements ((maps.foldl (installStep s) st)).head = titleElements st.head := by
  intro maps
  induction maps with
  | nil => intro st _; rfl
  | cons em rest ih =>
    intro st hall
    simp only [List.foldl_cons]
    rw [ih _ (fun em' h => hall em' (by simp [h])),
      installStep_titleElements s st em (hall em (by simp))]

theorem Helmet_titleElements (p : HelmetProps) (st : HeadState) (t : String)
    (ht : p.title = some t) (hnt : noTitleDescriptors p = true) :
    titleElements (Helmet p true st).head =
      match titleElements st.head with
      | [] => [titleNode t]
      | el :: rest => { el with inner_html := t } :: rest := by
  simp only [Helmet, ht, applyTitle]
  cases hx : extract_element_maps p.children with
  | none => exact titleElements_updateTitle t st.head
  | some maps =>
    simp only [if_true]
    have hall : ∀ em ∈ maps, ¬ em.tag = "title" := by
      simp only [noTitleDescriptors, hx, List.all_eq_true] at hnt
      intro em hm
      simpa using hnt em hm
    rw [mfold_titleElements p.seed maps _ hall]
    exact titleElements_updateTitle t st.head

theorem mountAll_titleElements :
    ∀ (ps : List HelmetProps) (c : String) (st : HeadState),
      (∀ q ∈ ps, q.title.isSome = true ∧ noTitleDescriptors q = true) →
      titleElements st.head = [titleNode c] →
      titleElements ((mountAll ps st)).head =
        [titleNode (ps.foldl (fun a q => q.title.getD a) c)] := by
  intro ps
  induction ps with
  | nil => intro c st _ hst; exact hst
  | cons q rest ih =>
    intro c st hall hst
    have hq := hall q (by simp)
    obtain ⟨tq, htq⟩ := Option.isSome_iff_exists.mp hq.1
    have h1 : titleElements (Helmet q true st).head = [titleNode tq] := by
      rw [Helmet_titleElements q st tq htq hq.2, hst]
      simp [titleNode]
    have h2 := ih tq (Helmet q true st) (fun r hr => hall r (by simp [hr])) h1
    simpa [mountAll, List.foldl_cons, htq] using h2

/-! ### Extractor lemmas -/

theorem extract_inner_eq_spec : ∀ cs : List TemplateNode,
    extract_inner_html cs = specInnerContent cs := by
  intro cs
  match cs with
  | [] => rfl
  | TemplateNode.Text _ :: _ => rfl
  | TemplateNode.Dynamic _ :: _ => rfl
  | TemplateNode.DynamicText _ :: _ => rfl
  | TemplateNode.Element _ _ [] :: _ => rfl
  | TemplateNode.Element _ _ [TemplateNode.Text _] :: _ => rfl
  | TemplateNode.Element _ _ [TemplateNode.Element _ _ _] :: _ => rfl
  | TemplateNode.Element _ _ [TemplateNode.Dynamic _] :: _ => rfl
  | TemplateNode.Element _ _ [TemplateNode.DynamicText _] :: _ => rfl
  | TemplateNode.Element _ _ (c1 :: c2 :: tl) :: _ =>
    have hlen : ((c1 :: c2 :: tl).length == 1) = false := by simp
    simp [extract_inner_html, specInnerContent, hlen]

theorem extract_attributes_drop_dynamic (attrs1 attrs2 : List TemplateAttribute)
    (i : Nat) :
    extract_attributes (attrs1 ++ TemplateAttribute.Dynamic i :: attrs2)
      = extract_attributes (attrs1 ++ attrs2) := by
  simp [extract_attributes, List.filterMap_append, List.filterMap_cons]

theorem extract_attributes_static_source (attrs : List TemplateAttribute)
    (a : String × String) (ha : a ∈ extract_attributes attrs) :
    ∃ n v, a = (n, v) ∧ TemplateAttribute.Static n v ∈ attrs := by
  simp only [extract_attributes, List.mem_filterMap] at ha
  obtain ⟨x, hx, hfx⟩ := ha
  cases x with
  | Static n v =>
    simp only [Option.some.injEq] at hfx
    exact ⟨n, v, hfx.symm, hx⟩
  | Dynamic _ => cases hfx

/-! ### Record-projection helpers -/

theorem head_withTitle (st : HeadState) (title : Option String) :
    ({ st with head := applyTitle title st.head } : HeadState).head
      = applyTitle title st.head := rfl

theorem cache_withTitle (st : HeadState) (title : Option String) :
    ({ st with head := applyTitle title st.head } : HeadState).init_cache
      = st.init_cache := rfl

/-- Shared helper: mounting a component whose descriptors contain `em`
(valid tag, no colliding sibling descriptor) from the empty document
registers its identity, and a second mount pass of any component leaves
exactly one stamped node for it. -/
theorem two_mounts_count (p1 p2 : HelmetProps) (maps1 : List ElementMap)
    (em : ElementMap)
    (he1 : extract_element_maps p1.children = some maps1)
    (hm1 : em ∈ maps1)
    (hv : isValidTagName em.tag = true)
    (hcoll : ∀ em' ∈ maps1,
      helmetHash p1.seed em' = helmetHash p1.seed em → em' = em) :
    helmetHash p1.seed em ∈ (Helmet p1 true emptyState).init_cache ∧
    countStamped (Helmet p2 true (Helmet p1 true emptyState)).head
      (helmetHash p1.seed em) = 1 := by
  have hme : helmetHash p1.seed em ∈ (Helmet p1 true emptyState).init_cache := by
    rw [Helmet_some p1 _ maps1 he1]
    exact mfold_cache_covers p1.seed em maps1 _ hm1
  have hc1 : countStamped (Helmet p1 true emptyState).head
      (helmetHash p1.seed em) = 1 := by
    rw [Helmet_some p1 _ maps1 he1]
    apply mfold_count_install p1.seed em hv maps1 _ hm1
    · rw [cache_withTitle]
      simp [emptyState]
    · rw [head_withTitle, countStamped_applyTitle]
      rfl
    · exact hcoll
  refine ⟨hme, ?_⟩
  cases hx2 : extract_element_maps p2.children with
  | none =>
    rw [Helmet_none p2 _ hx2, head_withTitle, countStamped_applyTitle]
    exact hc1
  | some maps2 =>
    rw [Helmet_some p2 _ maps2 hx2]
    rw [mfold_count_of_mem p2.seed _ maps2 _ (by rw [cache_withTitle]; exact hme)]
    rw [head_withTitle, countStamped_applyTitle]
    exact hc1

/-! ### The claims -/

/-- C1: mounting two components with the same seed whose declared children
both contain an element with identical tag, attribute sequence and inner
content leaves exactly one stamped DOM node for that element in the head;
the second mount pass finds the identity already registered and skips
materialization. -/
theorem claim_dedup_two_mounts (p1 p2 : HelmetProps)
    (maps1 maps2 : List ElementMap) (em : ElementMap)
    (hseed : p2.seed = p1.seed)
    (he1 : extract_element_maps p1.children = some maps1)
    (he2 : extract_element_maps p2.children = some maps2)
    (hm1 : em ∈ maps1) (hm2 : em ∈ maps2)
    (hv : isValidTagName em.tag = true)
    (hcoll : ∀ em' ∈ maps1,
      helmetHash p1.seed em' = helmetHash p1.seed em → em' = em) :
    helmetHash p1.seed em ∈ (Helmet p1 true emptyState).init_cache ∧
    countStamped (Helmet p2 true (Helmet p1 true emptyState)).head
      (helmetHash p1.seed em) = 1 :=
  two_mounts_count p1 p2 maps1 em he1 hm1 hv hcoll

/-- Witness for C1 at a concrete `style` descriptor mounted twice. -/
theorem claim_dedup_two_mounts_witness :
    countStamped
      (Helmet ⟨0, none, some [TemplateNode.Element "style" [] [TemplateNode.Text "b"]]⟩ true
        (Helmet ⟨0, none, some [TemplateNode.Element "style" [] [TemplateNode.Text "b"]]⟩ true
          emptyState)).head
      (helmetHash 0 ⟨"style", [], some "b"⟩) = 1 :=
  (claim_dedup_two_mounts
    ⟨0, none, some [TemplateNode.Element "style" [] [TemplateNode.Text "b"]]⟩
    ⟨0, none, some [TemplateNode.Element "style" [] [TemplateNode.Text "b"]]⟩
    [⟨"style", [], some "b"⟩] [⟨"style", [], some "b"⟩] ⟨"style", [], some "b"⟩
    rfl rfl rfl (by simp) (by simp) (by decide)
    (fun em' hm _ => by simpa using hm)).2

/-- C2: when A and B both contribute the identical descriptor under the same
seed, unmounting A alone removes the identity from the registry and the
shared DOM node from the head even though B is still mounted, and B's later
unmount is a no-op for that identity. -/
theorem claim_unmount_shared (pA pB : HelmetProps)
    (mapsA mapsB : List ElementMap) (em : ElementMap)
    (hseed : pB.seed = pA.seed)
    (heA : extract_element_maps pA.children = some mapsA)
    (heB : extract_element_maps pB.children = some mapsB)
    (hmA : em ∈ mapsA) (hmB : em ∈ mapsB)
    (hv : isValidTagName em.tag = true)
    (hcoll : ∀ em' ∈ mapsA,
      helmetHash pA.seed em' = helmetHash pA.seed em → em' = em) :
    countStamped (Helmet pB true (Helmet pA true emptyState)).head
      (helmetHash pA.seed em) = 1 ∧
    helmetHash pA.seed em ∉
      (dropHelmet pA true (Helmet pB true (Helmet pA true emptyState))).init_cache ∧
    countStamped
      (dropHelmet pA true (Helmet pB true (Helmet pA true emptyState))).head
      (helmetHash pA.seed em) = 0 ∧
    helmetHash pA.seed em ∉
      (dropHelmet pB true (dropHelmet pA true
        (Helmet pB true (Helmet pA true emptyState)))).init_cache ∧
    countStamped
      (dropHelmet pB true (dropHelmet pA true
        (Helmet pB true (Helmet pA true emptyState)))).head
      (helmetHash pA.seed em) = 0 := by
  have h1 := (two_mounts_count pA pB mapsA em heA hmA hv hcoll).2
  have hnd2 : (Helmet pB true (Helmet pA true emptyState)).init_cache.Nodup :=
    Helmet_nodup _ _ _ (Helmet_nodup _ _ _ (by simp [emptyState]))
  have hd3 := dropHelmet_some pA (Helmet pB true (Helmet pA true emptyState)) mapsA heA
  have h3c : helmetHash pA.seed em ∉
      (dropHelmet pA true (Helmet pB true (Helmet pA true emptyState))).init_cache := by
    rw [hd3]
    exact ufold_not_mem pA.seed em mapsA _ hnd2 hmA
  have h3n : countStamped
      (dropHelmet pA true (Helmet pB true (Helmet pA true emptyState))).head
      (helmetHash pA.seed em) = 0 := by
    rw [hd3]
    exact ufold_count_zero pA.seed em mapsA _ hmA
  have hd4 := dropHelmet_some pB
    (dropHelmet pA true (Helmet pB true (Helmet pA true emptyState))) mapsB heB
  have h4c : helmetHash pA.seed em ∉
      (dropHelmet pB true (dropHelmet pA true
        (Helmet pB true (Helmet pA true emptyState)))).init_cache := by
    rw [hd4]
    intro hm
    exact h3c (ufold_cache_subset pB.seed mapsB _ _ hm)
  have h4n : countStamped
      (dropHelmet pB true (dropHelmet pA true
        (Helmet pB true (Helmet pA true emptyState)))).head
      (helmetHash pA.seed em) = 0 := by
    rw [hd4]
    have := ufold_count_le pB.seed (helmetHash pA.seed em) mapsB
      (dropHelmet pA true (Helmet pB true (Helmet pA true emptyState)))
    omega
  exact ⟨h1, h3c, h3n, h4c, h4n⟩

/-- Witness for C2 at a concrete `style` descriptor contributed by both
components. -/
theorem claim_unmount_shared_witness :
    countStamped
      (dropHelmet ⟨0, none, some [TemplateNode.Element "style" [] [TemplateNode.Text "b"]]⟩ true
        (Helmet ⟨0, none, some [TemplateNode.Element "style" [] [TemplateNode.Text "b"]]⟩ true
          (Helmet ⟨0, none, some [TemplateNode.Element "style" [] [TemplateNode.Text "b"]]⟩ true
            emptyState))).head
      (helmetHash 0 ⟨"style", [], some "b"⟩) = 0 :=
  (claim_unmount_shared
    ⟨0, none, some [TemplateNode.Element "style" [] [TemplateNode.Text "b"]]⟩
    ⟨0, none, some [TemplateNode.Element "style" [] [TemplateNode.Text "b"]]⟩
    [⟨"style", [], some "b"⟩] [⟨"style", [], some "b"⟩] ⟨"style", [], some "b"⟩
    rfl rfl rfl (by simp) (by simp) (by decide)
    (fun em' hm _ => by simpa using hm)).2.2.1

/-- C3: an unmount pass removes from the head exactly the nodes stamped with
one of its own descriptors' identities — the head becomes the filter that
drops those stamps — so any node stamped with a different identity, and any
head content without one of those stamps, is left unchanged. -/
theorem claim_unmount_frame (pA : HelmetProps) (mapsA : List ElementMap)
    (st : HeadState)
    (heA : extract_element_maps pA.children = some mapsA) :
    (dropHelmet pA true st).head =
      st.head.filter (fun el => !(mapsA.any (fun em =>
        el.getAttribute "data-helmet-id"
          == some (toString (helmetHash pA.seed em))))) ∧
    (∀ h2, (∀ em ∈ mapsA, helmetHash pA.seed em ≠ h2) →
      countStamped (dropHelmet pA true st).head h2 = countStamped st.head h2) ∧
    (∀ em ∈ mapsA,
      countStamped (dropHelmet pA true st).head (helmetHash pA.seed em) = 0) := by
  rw [dropHelmet_some pA st mapsA heA]
  exact ⟨ufold_head _ mapsA st,
    fun h2 hne => ufold_count_frame _ h2 mapsA st hne,
    fun em hm => ufold_count_zero _ em mapsA st hm⟩

/-- Witness for C3 at a concrete component and a concrete head state. -/
theorem claim_unmount_frame_witness :
    (dropHelmet ⟨0, none, some [TemplateNode.Element "style" [] [TemplateNode.Text "b"]]⟩ true
      emptyState).head =
      emptyState.head.filter (fun el => !([(⟨"style", [], some "b"⟩ : ElementMap)].any (fun em =>
        el.getAttribute "data-helmet-id" == some (toString (helmetHash 0 em))))) :=
  (claim_unmount_frame
    ⟨0, none, some [TemplateNode.Element "style" [] [TemplateNode.Text "b"]]⟩
    [⟨"style", [], some "b"⟩] emptyState rfl).1

/-- C4, counterexample: on a mount pass whose lock acquisition fails, the
title update has already happened before the lock attempt, so the observable
state does not remain what it was before the call. -/
theorem claim_lock_counterexample :
    Helmet ⟨0, some "X", some []⟩ false emptyState ≠ emptyState := by decide

/-- C4, amended: when the registry lock cannot be acquired the pass is
aborted with the registry and materialized head elements unchanged; on a
mount pass the title update precedes the lock attempt and may already have
happened, while an unmount pass leaves the state exactly as it was. -/
theorem claim_lock_amended (props : HelmetProps) (st : HeadState) :
    Helmet props false st = { st with head := applyTitle props.title st.head } ∧
    dropHelmet props false st = st :=
  ⟨Helmet_lockfail props st, dropHelmet_lockfail props st⟩

/-- C5: a descriptor whose tag makes element creation fail materializes
nothing and appends nothing to the head, no error is propagated, and its
identity is still recorded as installed in the registry. -/
theorem claim_invalid_tag (props : HelmetProps) (st : HeadState) (em : ElementMap)
    (hx : extract_element_maps props.children = some [em])
    (hv : isValidTagName em.tag = false)
    (hnc : helmetHash props.seed em ∉ st.init_cache) :
    em.try_into_element (helmetHash props.seed em) = none ∧
    Helmet props true st =
      { init_cache := st.init_cache ++ [helmetHash props.seed em],
        head := applyTitle props.title st.head } := by
  refine ⟨try_into_element_none em _ hv, ?_⟩
  rw [Helmet_some props st [em] hx]
  simp only [List.foldl_cons, List.foldl_nil, installStep, cache_withTitle,
    head_withTitle]
  rw [if_neg (fun hc => hnc (List.elem_iff.mp hc)),
    try_into_element_none em _ hv]

/-- Witness for C5 at the empty tag, which the DOM rejects. -/
theorem claim_invalid_tag_witness :
    (⟨"", [], none⟩ : ElementMap).try_into_element (helmetHash 0 ⟨"", [], none⟩) = none ∧
    Helmet ⟨0, none, some [TemplateNode.Element "" [] []]⟩ true emptyState =
      { init_cache := emptyState.init_cache ++ [helmetHash 0 ⟨"", [], none⟩],
        head := applyTitle none emptyState.head } :=
  claim_invalid_tag ⟨0, none, some [TemplateNode.Element "" [] []]⟩ emptyState
    ⟨"", [], none⟩ rfl (by decide) (by decide)

/-- C6, counterexample: a component with a title value whose children also
declare a `title` element leaves two `<title>` elements in the head after a
single mount, refuting the "exactly one title" consequence. -/
theorem claim_title_counterexample :
    (titleElements (Helmet ⟨0, some "A",
      some [TemplateNode.Element "title" [] [TemplateNode.Text "B"]]⟩ true
      emptyState).head).length = 2 := by decide

/-- C6, amended: the title branch overwrites an existing `<title>` in place
and otherwise creates, fills and appends exactly one; provided the mounted
components' children yield no `title`-tagged descriptors, mounting a
sequence of components with titles leaves exactly one `<title>`, holding the
most recently mounted title text. -/
theorem claim_title_amended (ps : List HelmetProps) (p : HelmetProps) (t : String)
    (hall : ∀ q ∈ ps ++ [p], q.title.isSome = true ∧ noTitleDescriptors q = true)
    (ht : p.title = some t) :
    (∀ t2 head, titleElements head = [] →
      updateTitle t2 head = head ++ [titleNode t2]) ∧
    (∀ t2 head, titleElements (updateTitle t2 head) =
      match titleElements head with
      | [] => [titleNode t2]
      | el :: rest => { el with inner_html := t2 } :: rest) ∧
    titleElements ((mountAll (ps ++ [p]) emptyState)).head = [titleNode t] := by
  refine ⟨?_, fun t2 head => titleElements_updateTitle t2 head, ?_⟩
  · intro t2 head hte
    have ha : (head.any fun el => el.tag == "title") = false := by
      rw [List.any_eq_false]
      intro el hel
      simp only [titleElements, List.filter_eq_nil_iff] at hte
      exact hte el hel
    simp [updateTitle, ha, titleNode]
  · have hp := hall p (by simp)
    cases ps with
    | nil =>
      show titleElements (Helmet p true (mountAll [] emptyState)).head = [titleNode t]
      rw [Helmet_titleElements p _ t ht hp.2]
      rfl
    | cons q rest =>
      have hq := hall q (by simp)
      obtain ⟨tq, htq⟩ := Option.isSome_iff_exists.mp hq.1
      have h1 : titleElements (Helmet q true emptyState).head = [titleNode tq] := by
        rw [Helmet_titleElements q emptyState tq htq hq.2]
        rfl
      have h2 := mountAll_titleElements rest tq (Helmet q true emptyState)
        (fun r hr => hall r (by simp [hr])) h1
      have h3 : mountAll ((q :: rest) ++ [p]) emptyState
          = Helmet p true (mountAll rest (Helmet q true emptyState)) := by
        simp [mountAll, List.foldl_append]
      rw [h3, Helmet_titleElements p _ t ht hp.2, h2]
      simp [titleNode]

/-- Witness for C6's amended statement: mount "First" then "Second". -/
theorem claim_title_amended_witness :
    titleElements ((mountAll ([⟨0, some "First", none⟩] ++ [⟨0, some "Second", none⟩])
      emptyState)).head = [titleNode "Second"] :=
  (claim_title_amended [⟨0, some "First", none⟩] ⟨0, some "Second", none⟩ "Second"
    (by decide) rfl).2.2

/-- C7: the extractor's inner content for every element child follows
exactly the spec's ordered cases — first descendant a text node, else a
single-child element whose child is text, else absent. -/
theorem claim_inner_content (tag : String) (attrs : List TemplateAttribute)
    (cs rest : List TemplateNode) :
    extract_inner_html cs = specInnerContent cs ∧
    extract_element_maps (some (TemplateNode.Element tag attrs cs :: rest)) =
      some ({ tag := tag, attributes := extract_attributes attrs,
              inner_html := specInnerContent cs } :: rest.filterMap extract_node) := by
  refine ⟨extract_inner_eq_spec cs, ?_⟩
  simp [extract_element_maps, List.filterMap_cons, extract_node,
    extract_inner_eq_spec cs]

/-- C8: dynamically-valued attributes are dropped from the descriptor, so
they affect neither the identity hash nor the materialized attributes, and
every kept attribute pair comes from a statically-known attribute. -/
theorem claim_dynamic_attrs (tag : String) (attrs1 attrs2 : List TemplateAttribute)
    (i : Nat) (cs : List TemplateNode) (s : Int) :
    extract_attributes (attrs1 ++ TemplateAttribute.Dynamic i :: attrs2)
      = extract_attributes (attrs1 ++ attrs2) ∧
    extract_node (TemplateNode.Element tag
        (attrs1 ++ TemplateAttribute.Dynamic i :: attrs2) cs)
      = extract_node (TemplateNode.Element tag (attrs1 ++ attrs2) cs) ∧
    helmetHash s
        { tag := tag
          attributes := extract_attributes (attrs1 ++ TemplateAttribute.Dynamic i :: attrs2)
          inner_html := extract_inner_html cs }
      = helmetHash s
          { tag := tag
            attributes := extract_attributes (attrs1 ++ attrs2)
            inner_html := extract_inner_html cs } ∧
    (∀ a ∈ extract_attributes (attrs1 ++ attrs2),
      ∃ n v, a = (n, v) ∧ TemplateAttribute.Static n v ∈ attrs1 ++ attrs2) := by
  refine ⟨extract_attributes_drop_dynamic attrs1 attrs2 i, ?_, ?_, ?_⟩
  · simp [extract_node, extract_attributes_drop_dynamic attrs1 attrs2 i]
  · rw [extract_attributes_drop_dynamic attrs1 attrs2 i]
  · exact fun a ha => extract_attributes_static_source _ a ha

/-- C9: the installation registry never holds the same identity twice — in
every state reachable from the empty document by mount and unmount passes,
the registry is duplicate-free. -/
theorem claim_registry_nodup (st : HeadState) (h : Reachable st) :
    st.init_cache.Nodup := by
  induction h with
  | empty => simp [emptyState]
  | mount props lockOk st' _ ih => exact Helmet_nodup props lockOk st' ih
  | unmount props lockOk st' _ ih => exact dropHelmet_nodup props lockOk st' ih

/-- Witness for C9 at a concrete reachable state (one mount pass). -/
theorem claim_registry_nodup_witness :
    (Helmet ⟨0, none, some [TemplateNode.Element "style" [] [TemplateNode.Text "b"]]⟩ true
      emptyState).init_cache.Nodup :=
  claim_registry_nodup _ (Reachable.mount _ true emptyState Reachable.empty)

/-- C10: the identity stamp is applied after the descriptor's own
attributes, so even a descriptor that declares its own `data-helmet-id`
attribute materializes with the computed identity's string form, not the
user-declared value. -/
theorem claim_stamp_overrides (em : ElementMap) (hsh : Nat) (v : String)
    (hv : isValidTagName em.tag = true)
    (hd : ("data-helmet-id", v) ∈ em.attributes) :
    ∃ el, em.try_into_element hsh = some el ∧
      el.getAttribute "data-helmet-id" = some (toString hsh) ∧
      (¬ v = toString hsh → ¬ el.getAttribute "data-helmet-id" = some v) := by
  obtain ⟨el, hel, _, hst⟩ := try_into_element_some em hsh hv
  refine ⟨el, hel, hst, ?_⟩
  intro hne hc
  rw [hst] at hc
  exact hne (Option.some.inj hc).symm

/-- Witness for C10 at a concrete `link` descriptor that declares its own
`data-helmet-id`. -/
theorem claim_stamp_overrides_witness :
    ∃ el, (⟨"link", [("data-helmet-id", "user")], none⟩ : ElementMap).try_into_element 5
        = some el ∧
      el.getAttribute "data-helmet-id" = some (toString 5) ∧
      (¬ "user" = toString 5 → ¬ el.getAttribute "data-helmet-id" = some "user") :=
  claim_stamp_overrides ⟨"link", [("data-helmet-id", "user")], none⟩ 5 "user"
    (by decide) (by decide)

end DioxusHelmet
